import Mathlib

/- Shallow embedding of the memory subsystem of the llm-agent-memory repository:
the bounded context store, the profile store, the retrieval store with its
cosine-similarity ranking and fallback embedding, the memory router and the
prompt assembler. Definitions mirror the Python source in src/memory and
src/prompt; theorems settle the specification claims about them. -/

/-- A dialogue turn: one user utterance paired with the assistant reply.
In src/memory/context_memory.py a turn is the dict
produced by add_turn with keys for the user and assistant texts. -/
structure Turn where
  user : String
  assistant : String
  deriving DecidableEq

/-- State of ContextMemory (src/memory/context_memory.py): the retained
capacity max_turns and the deque of turns in chronological order. -/
structure ContextMemory where
  maxTurns : Nat
  turns : List Turn
  deriving DecidableEq

/-- ContextMemory construction: raises ValueError when max_turns <= 0,
otherwise starts with an empty deque of capacity max_turns. -/
def ContextMemory.init (maxTurns : Int) : Except String ContextMemory :=
  if maxTurns ≤ 0 then .error "max_turns must be a positive integer."
  else .ok ⟨maxTurns.toNat, []⟩

/-- ContextMemory.add_turn: append the turn; the deque with maxlen drops
turns from the left so that at most maxTurns remain. -/
def ContextMemory.addTurn (s : ContextMemory) (userText assistantText : String) :
    ContextMemory :=
  let ts := s.turns ++ [⟨userText, assistantText⟩]
  ⟨s.maxTurns, ts.drop (ts.length - s.maxTurns)⟩

/-- ContextMemory.get_context: list(self._turns), the stored turns in
chronological (oldest-first) order. -/
def ContextMemory.getContext (s : ContextMemory) : List Turn :=
  s.turns

/-- One add_turn call fed from a Turn value, for folding a sequence of
additions over the store. -/
def addTurnStep (s : ContextMemory) (t : Turn) : ContextMemory :=
  s.addTurn t.user t.assistant

/-- Initial-segment test on character lists: `leadMatch n h` holds when the
needle `n` matches the first characters of `h`. Auxiliary for the model of
Python's substring operator. -/
def leadMatch : List Char → List Char → Bool
  | [], _ => true
  | _ :: _, [] => false
  | a :: as, b :: bs => a == b && leadMatch as bs

/-- Model of Python's `needle in hay` substring operator on character lists:
the needle occurs contiguously somewhere in the haystack. -/
def hasSub : List Char → List Char → Bool
  | n, [] => leadMatch n []
  | n, b :: bs => leadMatch n (b :: bs) || hasSub n bs

/-- `strContains hay needle` models `needle in hay` on Python strings. -/
def strContains (hay needle : String) : Bool :=
  hasSub needle.toList hay.toList

/-- Model of Python's str.lower(): lowercase every character. On the ASCII
rule vocabulary of ProfileMemory this agrees with Python's case folding. -/
def pyLower (s : String) : String :=
  String.mk (s.data.map Char.toLower)

/-- State of ProfileMemory (src/memory/profile_memory.py): the two fixed keys
of the profile dict, both initially empty. -/
structure ProfileMemory where
  preference : String
  style : String
  deriving DecidableEq

/-- ProfileMemory.__init__: both fields start empty. -/
def ProfileMemory.init : ProfileMemory := ⟨"", ""⟩

/-- ProfileMemory._extract_preference: first matching rule wins, the empty
string signals no match. -/
def ProfileMemory.extractPreference (lowered : String) : String :=
  if strContains lowered "i don\x27t like" || strContains lowered "i do not like"
      || strContains lowered "i dislike" then
    "avoid what the user dislikes"
  else if strContains lowered "i like" then
    "follow what the user likes"
  else if strContains lowered "i prefer" || strContains lowered "my preference is" then
    "follow the user\x27s stated preference"
  else ""

/-- ProfileMemory._extract_style: first matching rule wins, the empty string
signals no match. -/
def ProfileMemory.extractStyle (lowered : String) : String :=
  if strContains lowered "formal" then "formal"
  else if strContains lowered "casual" || strContains lowered "informal" then "casual"
  else if strContains lowered "concise" || strContains lowered "brief" then "concise"
  else if strContains lowered "detailed" || strContains lowered "thorough" then "detailed"
  else ""

/-- ProfileMemory.update_from_text: lowercase the text, then overwrite each
field only when its extractor matched (Python truthiness of the result). -/
def ProfileMemory.updateFromText (s : ProfileMemory) (text : String) : ProfileMemory :=
  let lowered := pyLower text
  let preference := ProfileMemory.extractPreference lowered
  let s1 := if preference ≠ "" then { s with preference := preference } else s
  let style := ProfileMemory.extractStyle lowered
  if style ≠ "" then { s1 with style := style } else s1

/-- ProfileMemory.get_profile_prompt: collect the lines for the non-empty
fields (preference line first) and join them with a newline. -/
def ProfileMemory.getProfilePrompt (s : ProfileMemory) : String :=
  let lines :=
    (if s.preference ≠ "" then ["User preference: " ++ s.preference ++ "."] else [])
      ++ (if s.style ≠ "" then ["User style: " ++ s.style ++ "."] else [])
  String.intercalate "\n" lines

/-- Chat-message roles accepted by the model-completion capability. -/
inductive Role where
  | system
  | user
  | assistant
  deriving DecidableEq

/-- A chat message as built by PromptBuilder (src/prompt/prompt_builder.py). -/
structure Message where
  role : Role
  content : String
  deriving DecidableEq

/-- The messages contributed by one context turn in PromptBuilder's loop: a
user message when the user text is non-empty, then an assistant message when
the assistant text is non-empty. -/
def turnMessages (t : Turn) : List Message :=
  (if t.user ≠ "" then [⟨Role.user, t.user⟩] else [])
    ++ (if t.assistant ≠ "" then [⟨Role.assistant, t.assistant⟩] else [])

/-- The content of the retrieved-memories system message: the header followed
by one bulleted line per retrieved text. -/
def retrievedBlock (retrievedMemories : List String) : String :=
  "Relevant memories:\n"
    ++ String.intercalate "\n" (retrievedMemories.map (fun item => "- " ++ item))

/-- One iteration of PromptBuilder's loop over the context turns: append the
user message when the user text is non-empty, then the assistant message when
the assistant text is non-empty. -/
def promptTurnStep (acc : List Message) (turn : Turn) : List Message :=
  acc ++ (if turn.user ≠ "" then [⟨Role.user, turn.user⟩] else [])
    ++ (if turn.assistant ≠ "" then [⟨Role.assistant, turn.assistant⟩] else [])

/-- PromptBuilder.build_messages, mirroring the sequential appends of the
source: optional profile system message, optional retrieved-memories system
message, the per-turn loop, then the unconditional final user message. -/
def buildMessages (contextMemories : List Turn) (retrievedMemories : List String)
    (profilePrompt userQuery : String) : List Message :=
  let m1 : List Message :=
    if profilePrompt ≠ "" then [⟨Role.system, profilePrompt⟩] else []
  let m2 :=
    if retrievedMemories ≠ [] then m1 ++ [⟨Role.system, retrievedBlock retrievedMemories⟩]
    else m1
  let m3 := contextMemories.foldl promptTurnStep m2
  m3 ++ [⟨Role.user, userQuery⟩]

/-- The assembler output as the specification describes it: the concatenation
of the optional profile block, the optional retrieved block, the per-turn
messages in order, and the single final user message. -/
def buildMessagesFromSpec (contextMemories : List Turn) (retrievedMemories : List String)
    (profilePrompt userQuery : String) : List Message :=
  (if profilePrompt ≠ "" then [⟨Role.system, profilePrompt⟩] else [])
    ++ (if retrievedMemories ≠ [] then [⟨Role.system, retrievedBlock retrievedMemories⟩] else [])
    ++ (contextMemories.map turnMessages).flatten
    ++ [⟨Role.user, userQuery⟩]

/-- The dot product of the first `n` indexed components of two vectors, as the
generator-expression sums of _cosine_similarity (src/memory/retrieval_memory.py)
compute it; indexing past the end contributes the default 0, which the source
never does because `n` is bounded by both lengths. -/
def dotRange (a b : List ℝ) (n : Nat) : ℝ :=
  ((List.range n).map (fun i => a.getD i 0 * b.getD i 0)).sum

/-- The sum of squared components of a vector, as in _normalize. -/
def sumSq (v : List ℝ) : ℝ :=
  ((v.map (fun x => x * x)).sum)

/-- The Euclidean norm of a vector. -/
noncomputable def vecNorm (v : List ℝ) : ℝ :=
  Real.sqrt (sumSq v)

/-- _cosine_similarity: 0.0 on an empty argument, truncate both vectors to the
shorter length, 0.0 when either truncated norm vanishes, otherwise the dot
product divided by the product of the norms. The local variables length, dot,
norm_a and norm_b of the source are written out in place. -/
noncomputable def cosineSimilarity (a b : List ℝ) : ℝ :=
  if a = [] ∨ b = [] then 0
  else if Real.sqrt (dotRange a a (min a.length b.length)) = 0
      ∨ Real.sqrt (dotRange b b (min a.length b.length)) = 0 then 0
  else
    dotRange a b (min a.length b.length)
      / (Real.sqrt (dotRange a a (min a.length b.length))
          * Real.sqrt (dotRange b b (min a.length b.length)))

/-- The sum of squared components over ℤ, exact on the integer-valued bucket
sums of the fallback embedding. -/
def sumSqInt (v : List ℤ) : ℤ :=
  ((v.map (fun x => x * x)).sum)

/-- One iteration of the _mock_embedding loop: add the character code of the
enumerated character at bucket `idx % dim`. -/
def bucketStep (dim : Nat) (vector : List ℤ) (p : Nat × Char) : List ℤ :=
  vector.set (p.1 % dim) (vector.getD (p.1 % dim) 0 + p.2.toNat)

/-- The bucketed character-code vector of _mock_embedding before normalization:
start from `dim` zeros and add each character code at index `idx % dim`.
Computed over ℤ, whose arithmetic is exact on these integer-valued sums. -/
def buildVector (text : String) (dim : Nat) : List ℤ :=
  text.toList.enum.foldl (bucketStep dim) (List.replicate dim 0)

/-- The character codes falling into bucket `j`, summed, for the characters
enumerated from start index `i`: the content the specification ascribes to one
bucket of the fallback embedding. -/
def bucketSumFrom (cs : List Char) (i dim j : Nat) : ℤ :=
  (((cs.enumFrom i).filter (fun p => p.1 % dim == j)).map
    (fun p => ((p.2.toNat : ℤ)))).sum

/-- The bucketed vector as the specification describes it: bucket `j` holds
the sum of the character codes whose index is congruent to `j` modulo `dim`. -/
def bucketVector (text : String) (dim : Nat) : List ℤ :=
  (List.range dim).map (fun j => bucketSumFrom text.toList 0 dim j)

/-- _normalize: divide by the Euclidean norm, except that a zero-norm vector is
returned unchanged; the local variable norm of the source is written out in
place. -/
noncomputable def normalizeVec (v : List ℝ) : List ℝ :=
  if Real.sqrt (sumSq v) = 0 then v
  else v.map (fun x => x / Real.sqrt (sumSq v))

/-- _mock_embedding: the bucketed character-code vector, then _normalize. -/
noncomputable def mockEmbedding (text : String) (dim : Nat) : List ℝ :=
  normalizeVec ((buildVector text dim).map (fun z : ℤ => (z : ℝ)))

/-- State of RetrievalMemory (src/memory/retrieval_memory.py): the parallel
lists of stored texts and their embeddings. The embedding capability itself is
passed explicitly to the operations that use it. -/
structure RetrievalMemory where
  texts : List String
  embeddings : List (List ℝ)

/-- RetrievalMemory.__init__: empty storage. -/
def RetrievalMemory.init : RetrievalMemory := ⟨[], []⟩

/-- RetrievalMemory.add_memory: embed the text once and append both lists. -/
def RetrievalMemory.addMemory (embed : String → List ℝ) (s : RetrievalMemory)
    (text : String) : RetrievalMemory :=
  ⟨s.texts ++ [text], s.embeddings ++ [embed text]⟩

/-- The scored list of RetrievalMemory.retrieve: one (similarity, text) pair
per stored record, in storage order. -/
noncomputable def scoredList (embed : String → List ℝ) (s : RetrievalMemory)
    (query : String) : List (ℝ × String) :=
  let queryEmbedding := embed query
  (s.texts.zip s.embeddings).map
    (fun p => (cosineSimilarity queryEmbedding p.2, p.1))

/-- The comparison used by the stable descending sort of retrieve: Python's
list.sort with key item[0] and reverse=True places x before y exactly when
y's similarity does not exceed x's, keeping ties in insertion order. -/
noncomputable def descLe (x y : ℝ × String) : Bool :=
  decide (y.1 ≤ x.1)

/-- The scored list after the stable descending sort of retrieve. -/
noncomputable def sortedScored (embed : String → List ℝ) (s : RetrievalMemory)
    (query : String) : List (ℝ × String) :=
  (scoredList embed s query).mergeSort descLe

/-- RetrievalMemory.retrieve: empty result for k <= 0 or an empty store,
otherwise the texts of the first k entries of the stably sorted scored list. -/
noncomputable def RetrievalMemory.retrieve (embed : String → List ℝ)
    (s : RetrievalMemory) (query : String) (k : Int) : List String :=
  if k ≤ 0 ∨ s.texts = [] then []
  else ((sortedScored embed s query).take k.toNat).map (fun p => p.2)

/-- The aggregated memory returned by MemoryRouter.collect_memories. -/
structure AggregatedMemory where
  context : List Turn
  retrieval : List String
  profile : String

/-- ContextMemory.get_context in state-passing form: the Python method reads
the deque into a fresh list and leaves the store untouched. -/
def ContextMemory.getContextM (s : ContextMemory) : List Turn × ContextMemory :=
  (s.turns, s)

/-- RetrievalMemory.retrieve in state-passing form: a pure read of storage. -/
noncomputable def RetrievalMemory.retrieveM (embed : String → List ℝ)
    (s : RetrievalMemory) (query : String) (k : Int) :
    List String × RetrievalMemory :=
  (RetrievalMemory.retrieve embed s query k, s)

/-- ProfileMemory.get_profile_prompt in state-passing form: a pure read. -/
def ProfileMemory.getProfilePromptM (s : ProfileMemory) : String × ProfileMemory :=
  (s.getProfilePrompt, s)

/-- State of MemoryRouter (src/memory/memory_router.py): the three stores and
the retrieval size fixed at construction. -/
structure MemoryRouter where
  contextMemory : ContextMemory
  retrievalMemory : RetrievalMemory
  profileMemory : ProfileMemory
  retrievalK : Int

/-- MemoryRouter.collect_memories: query each store and package the three
results; the stores come back exactly as they went in. -/
noncomputable def MemoryRouter.collectMemories (embed : String → List ℝ)
    (r : MemoryRouter) (query : String) : AggregatedMemory × MemoryRouter :=
  let contextR := r.contextMemory.getContextM
  let retrievalR := RetrievalMemory.retrieveM embed r.retrievalMemory query r.retrievalK
  let profileR := r.profileMemory.getProfilePromptM
  (⟨contextR.1, retrievalR.1, profileR.1⟩,
    ⟨contextR.2, retrievalR.2, profileR.2, r.retrievalK⟩)

theorem intercalate_singleton (s a : String) : String.intercalate s [a] = a := rfl

theorem intercalate_two (s a b : String) : String.intercalate s [a, b] = a ++ s ++ b := rfl

theorem addTurn_foldl (N : Nat) :
    ∀ (L T : List Turn), T.length ≤ N →
      (L.foldl (addTurnStep) ⟨N, T⟩).turns
        = (T ++ L).drop (T.length + L.length - N) := by
  intro L
  induction L with
  | nil =>
    intro T hT
    simp [Nat.sub_eq_zero_of_le hT]
  | cons t L ih =>
    intro T hT
    have step : addTurnStep ⟨N, T⟩ t
        = ⟨N, (T ++ [t]).drop (T.length + 1 - N)⟩ := by
      simp [addTurnStep, ContextMemory.addTurn]
    rw [List.foldl_cons, step]
    have hT' : ((T ++ [t]).drop (T.length + 1 - N)).length ≤ N := by
      simp only [List.length_drop, List.length_append, List.length_cons,
        List.length_nil]
      omega
    rw [ih _ hT']
    have hd : T.length + 1 - N ≤ (T ++ [t]).length := by
      simp only [List.length_append, List.length_cons, List.length_nil]
      omega
    rw [← List.drop_append_of_le_length hd, List.drop_drop]
    have harr : (T ++ [t]) ++ L = T ++ t :: L := by
      simp
    rw [harr]
    congr 1
    simp only [List.length_drop, List.length_append, List.length_cons,
      List.length_nil]
    omega

/-- Claim C1: starting from an empty BoundedContextStore of capacity N > 0,
adding N + m turns and reading the context yields exactly the last N turns in
chronological (oldest-first) order, and with no additions the context is
empty. -/
theorem claim_c1 (N m : Nat) (L : List Turn) (hN : 0 < N)
    (hL : L.length = N + m) :
    (L.foldl (addTurnStep)
        ⟨N, []⟩).getContext = L.drop m ∧
    (ContextMemory.mk N []).getContext = [] := by
  refine ⟨?_, rfl⟩
  have h := addTurn_foldl N L [] (by simp)
  simp only [List.nil_append, List.length_nil, Nat.zero_add] at h
  show (L.foldl (addTurnStep) ⟨N, []⟩).turns = L.drop m
  rw [h]
  congr 1
  omega

/-- Witness for claim C1: the capacity-4 scenario of the specification; the
first of the five added turns is evicted. -/
theorem claim_c1_witness :
    0 < 4 ∧
    ([Turn.mk "Hi" "Hello", Turn.mk "A1" "A2", Turn.mk "B1" "B2",
      Turn.mk "C1" "C2", Turn.mk "D1" "D2"] : List Turn).length = 4 + 1 ∧
    ([Turn.mk "Hi" "Hello", Turn.mk "A1" "A2", Turn.mk "B1" "B2",
        Turn.mk "C1" "C2", Turn.mk "D1" "D2"].foldl
        (addTurnStep) ⟨4, []⟩).getContext
      = [Turn.mk "A1" "A2", Turn.mk "B1" "B2", Turn.mk "C1" "C2",
          Turn.mk "D1" "D2"] := by
  refine ⟨by decide, by decide, ?_⟩
  have h := (claim_c1 4 1
    [Turn.mk "Hi" "Hello", Turn.mk "A1" "A2", Turn.mk "B1" "B2",
      Turn.mk "C1" "C2", Turn.mk "D1" "D2"] (by decide) (by decide)).1
  rw [h]
  decide

/-- Claim C10: constructing a BoundedContextStore with capacity <= 0 fails
with the invalid-configuration error and yields no usable store at all,
while any positive capacity yields an empty store of that capacity. -/
theorem claim_c10 (capacity : Int) :
    (capacity ≤ 0 →
      ContextMemory.init capacity
        = Except.error "max_turns must be a positive integer.") ∧
    (0 < capacity →
      ContextMemory.init capacity = Except.ok ⟨capacity.toNat, []⟩) := by
  constructor
  · intro h
    simp [ContextMemory.init, h]
  · intro h
    have h' : ¬ capacity ≤ 0 := by omega
    simp [ContextMemory.init, h']

/-- Witness for claim C10: capacity -1 fails, capacity 3 builds the empty
store. -/
theorem claim_c10_witness :
    ((-1 : Int) ≤ 0 ∧
      ContextMemory.init (-1)
        = Except.error "max_turns must be a positive integer.") ∧
    ((0 : Int) < 3 ∧
      ContextMemory.init 3 = Except.ok ⟨(3 : Int).toNat, []⟩) :=
  ⟨⟨by decide, (claim_c10 (-1)).1 (by decide)⟩,
    ⟨by decide, (claim_c10 3).2 (by decide)⟩⟩

/-- Claim C9: get_profile_prompt is a pure rendering of the set fields, with
the preference line before the style line, empty fields omitted, the empty
string when both fields are empty (in particular on a fresh store), and
exactly the single style line after only a style match. -/
theorem claim_c9 (p st : String) :
    ProfileMemory.getProfilePrompt ⟨"", ""⟩ = "" ∧
    (st ≠ "" →
      ProfileMemory.getProfilePrompt ⟨"", st⟩ = "User style: " ++ st ++ ".") ∧
    (p ≠ "" →
      ProfileMemory.getProfilePrompt ⟨p, ""⟩
        = "User preference: " ++ p ++ ".") ∧
    (p ≠ "" → st ≠ "" →
      ProfileMemory.getProfilePrompt ⟨p, st⟩
        = "User preference: " ++ p ++ "." ++ "\n"
            ++ ("User style: " ++ st ++ ".")) := by
  refine ⟨rfl, ?_, ?_, ?_⟩
  · intro hst
    simp [ProfileMemory.getProfilePrompt, hst, intercalate_singleton]
  · intro hp
    simp [ProfileMemory.getProfilePrompt, hp, intercalate_singleton]
  · intro hp hst
    simp [ProfileMemory.getProfilePrompt, hp, hst, intercalate_two]

/-- Claim C8: collect_memories returns exactly the triple of the three store
reads with k fixed at construction, and hands every store back unchanged; the
aggregate is a value built from the state at collection time, so mutating a
store afterwards cannot alter an already returned AggregatedMemory. -/
theorem claim_c8 (embed : String → List ℝ) (r : MemoryRouter) (query : String) :
    MemoryRouter.collectMemories embed r query
      = (⟨r.contextMemory.getContext,
          RetrievalMemory.retrieve embed r.retrievalMemory query r.retrievalK,
          r.profileMemory.getProfilePrompt⟩, r) := by
  simp only [MemoryRouter.collectMemories, ContextMemory.getContextM,
    RetrievalMemory.retrieveM, ProfileMemory.getProfilePromptM,
    ContextMemory.getContext]

theorem foldl_promptTurnStep (L : List Turn) (acc : List Message) :
    L.foldl promptTurnStep acc = acc ++ (L.map turnMessages).flatten := by
  induction L generalizing acc with
  | nil => simp
  | cons t L ih =>
    simp [promptTurnStep, ih, turnMessages, List.append_assoc]

/-- Claim C3: the assembler emits, in order, the optional verbatim profile
system message, the optional retrieved-memories system message (header plus
one bulleted line per text, in received order), the per-turn user/assistant
messages for non-empty texts in received order, and exactly one final user
message with the query, unconditionally; nothing else. -/
theorem claim_c3 (contextTurns : List Turn) (retrievedTexts : List String)
    (profilePrompt userQuery : String) :
    buildMessages contextTurns retrievedTexts profilePrompt userQuery
      = buildMessagesFromSpec contextTurns retrievedTexts profilePrompt userQuery := by
  simp only [buildMessages, buildMessagesFromSpec]
  rw [foldl_promptTurnStep]
  split_ifs <;> simp [List.append_assoc]

/-- Claim C4: the update rules act per field with first-match-wins priority:
the example text sets both fields in one call, a text matching neither rule
set leaves the state unchanged, a text with no style match never changes the
style field, and a text with no preference match never changes the
preference field. -/
theorem claim_c4 (s : ProfileMemory) (t : String) :
    (ProfileMemory.init.updateFromText "I like concise answers"
        = ⟨"follow what the user likes", "concise"⟩) ∧
    (ProfileMemory.extractPreference (pyLower t) = "" →
      ProfileMemory.extractStyle (pyLower t) = "" →
      s.updateFromText t = s) ∧
    (ProfileMemory.extractStyle (pyLower t) = "" →
      (s.updateFromText t).style = s.style) ∧
    (ProfileMemory.extractPreference (pyLower t) = "" →
      (s.updateFromText t).preference = s.preference) := by
  refine ⟨by decide, ?_, ?_, ?_⟩
  · intro hp hst
    simp [ProfileMemory.updateFromText, hp, hst]
  · intro hst
    simp only [ProfileMemory.updateFromText, hst, ne_eq, not_true_eq_false,
      not_false_eq_true, if_neg]
    split_ifs <;> simp
  · intro hp
    simp only [ProfileMemory.updateFromText, hp, ne_eq, not_true_eq_false,
      not_false_eq_true, if_neg]
    split_ifs <;> simp

/-- Witness for claim C4: a text matching neither rule set leaves a concrete
profile state untouched. -/
theorem claim_c4_witness :
    ProfileMemory.extractPreference (pyLower "hello there") = "" ∧
    ProfileMemory.extractStyle (pyLower "hello there") = "" ∧
    (ProfileMemory.mk "p" "s").updateFromText "hello there"
      = ProfileMemory.mk "p" "s" :=
  ⟨by decide, by decide,
    (claim_c4 (ProfileMemory.mk "p" "s") "hello there").2.1
      (by decide) (by decide)⟩

theorem leadMatch_iff (n : List Char) :
    ∀ h, leadMatch n h = true ↔ ∃ t, h = n ++ t := by
  induction n with
  | nil =>
    intro h
    simp [leadMatch]
  | cons a as ih =>
    intro h
    cases h with
    | nil =>
      simp [leadMatch]
    | cons b bs =>
      rw [leadMatch, Bool.and_eq_true, beq_iff_eq, ih bs]
      constructor
      · rintro ⟨rfl, t, rfl⟩
        exact ⟨t, rfl⟩
      · rintro ⟨t, ht⟩
        rw [List.cons_append, List.cons.injEq] at ht
        exact ⟨ht.1.symm, t, ht.2⟩

theorem hasSub_iff (n : List Char) :
    ∀ h, hasSub n h = true ↔ ∃ p t, h = p ++ (n ++ t) := by
  intro h
  induction h with
  | nil =>
    rw [hasSub, leadMatch_iff]
    constructor
    · rintro ⟨t, ht⟩
      exact ⟨[], t, by simpa using ht⟩
    · rintro ⟨p, t, hp⟩
      rw [eq_comm, List.append_eq_nil] at hp
      exact ⟨t, hp.2.symm⟩
  | cons b bs ih =>
    rw [hasSub, Bool.or_eq_true, leadMatch_iff, ih]
    constructor
    · rintro (⟨t, ht⟩ | ⟨p, t, rfl⟩)
      · exact ⟨[], t, by simpa using ht⟩
      · exact ⟨b :: p, t, rfl⟩
    · rintro ⟨p, t, hp⟩
      cases p with
      | nil =>
        left
        exact ⟨t, by simpa using hp⟩
      | cons c cs =>
        right
        rw [List.cons_append, List.cons.injEq] at hp
        exact ⟨cs, t, hp.2⟩

theorem hasSub_trans {a b c : List Char} (h1 : hasSub a b = true)
    (h2 : hasSub b c = true) : hasSub a c = true := by
  rw [hasSub_iff] at h1 h2 ⊢
  obtain ⟨p, t, rfl⟩ := h1
  obtain ⟨q, u, rfl⟩ := h2
  exact ⟨q ++ p, t ++ u, by simp [List.append_assoc]⟩

/-- Claim C7: any text containing "informal" (case-insensitively) sets the
style field to "formal": the formal cue is checked first and occurs inside
"informal", so the cue word "informal" can never produce style "casual". -/
theorem claim_c7 (t : String) (s : ProfileMemory)
    (h : strContains (pyLower t) "informal" = true) :
    ProfileMemory.extractStyle (pyLower t) = "formal" ∧
    (s.updateFromText t).style = "formal" := by
  have hf : strContains (pyLower t) "formal" = true :=
    hasSub_trans (by decide) h
  have hstyle : ProfileMemory.extractStyle (pyLower t) = "formal" := by
    simp [ProfileMemory.extractStyle, hf]
  refine ⟨hstyle, ?_⟩
  simp [ProfileMemory.updateFromText, hstyle]

/-- Witness for claim C7: a text meant to ask for casual style nevertheless
sets style "formal". -/
theorem claim_c7_witness :
    strContains (pyLower "I prefer informal chat") "informal" = true ∧
    ProfileMemory.extractStyle (pyLower "I prefer informal chat") = "formal" ∧
    (ProfileMemory.init.updateFromText "I prefer informal chat").style
      = "formal" := by
  have h := claim_c7 "I prefer informal chat" ProfileMemory.init (by decide)
  exact ⟨by decide, h.1, h.2⟩

/-- Witness for claim C9: a store holding only the style field renders the
single style line. -/
theorem claim_c9_witness :
    ("concise" : String) ≠ "" ∧ ("pref" : String) ≠ "" ∧
    ProfileMemory.getProfilePrompt ⟨"", "concise"⟩
      = "User style: " ++ "concise" ++ "." ∧
    ProfileMemory.getProfilePrompt ⟨"pref", "concise"⟩
      = "User preference: " ++ "pref" ++ "." ++ "\n"
          ++ ("User style: " ++ "concise" ++ ".") :=
  ⟨by decide, by decide,
    (claim_c9 "pref" "concise").2.1 (by decide),
    (claim_c9 "pref" "concise").2.2.2 (by decide) (by decide)⟩

theorem getD_lt {α : Type} (l : List α) (d : α) (i : Nat) (h : i < l.length) :
    l.getD i d = l[i] := by
  simp [List.getD_eq_getElem?_getD, List.getElem?_eq_getElem h]

theorem getD_ge {α : Type} (l : List α) (d : α) (i : Nat) (h : l.length ≤ i) :
    l.getD i d = d := by
  simp [List.getD_eq_getElem?_getD, List.getElem?_eq_none h]

theorem dotRange_comm (a b : List ℝ) (n : Nat) :
    dotRange a b n = dotRange b a n := by
  unfold dotRange
  congr 1
  exact List.map_congr_left fun i _ => mul_comm _ _

theorem dotRange_self_nonneg (a : List ℝ) (n : Nat) : 0 ≤ dotRange a a n := by
  apply List.sum_nonneg
  intro x hx
  simp only [List.mem_map] at hx
  obtain ⟨i, -, rfl⟩ := hx
  exact mul_self_nonneg _

theorem dotRange_self_eq_zero (a : List ℝ) (n : Nat) (h : ∀ x ∈ a, x = 0) :
    dotRange a a n = 0 := by
  apply List.sum_eq_zero
  intro x hx
  simp only [List.mem_map] at hx
  obtain ⟨i, -, rfl⟩ := hx
  rcases Nat.lt_or_ge i a.length with hlt | hge
  · rw [getD_lt a 0 i hlt, h _ (List.getElem_mem hlt)]
    simp
  · rw [getD_ge a 0 i hge]
    simp

theorem dotRange_self_pos (a : List ℝ) (h : ∃ x ∈ a, x ≠ 0) :
    0 < dotRange a a a.length := by
  obtain ⟨x, hx, hne⟩ := h
  obtain ⟨i, hilen, hieq⟩ := List.getElem_of_mem hx
  have hterm : (0 : ℝ) < a.getD i 0 * a.getD i 0 := by
    rw [getD_lt a 0 i hilen, hieq]
    exact mul_self_pos.mpr hne
  have hmem : a.getD i 0 * a.getD i 0
      ∈ (List.range a.length).map (fun j => a.getD j 0 * a.getD j 0) :=
    List.mem_map_of_mem _ (List.mem_range.mpr hilen)
  have hnn : ∀ y ∈ (List.range a.length).map
      (fun j => a.getD j 0 * a.getD j 0), (0 : ℝ) ≤ y := by
    intro y hy
    simp only [List.mem_map] at hy
    obtain ⟨j, -, rfl⟩ := hy
    exact mul_self_nonneg _
  unfold dotRange
  exact lt_of_lt_of_le hterm (List.single_le_sum hnn _ hmem)

/-- Claim C6: cosine similarity is symmetric, the self-similarity of a
non-zero vector is exactly 1, and any similarity involving an all-zero (or
empty) vector is exactly 0. -/
theorem claim_c6 (a b : List ℝ) :
    cosineSimilarity a b = cosineSimilarity b a ∧
    ((∃ x ∈ a, x ≠ 0) → cosineSimilarity a a = 1) ∧
    ((∀ x ∈ a, x = 0) →
      cosineSimilarity a b = 0 ∧ cosineSimilarity b a = 0) := by
  refine ⟨?_, ?_, ?_⟩
  · unfold cosineSimilarity
    by_cases h1 : a = [] ∨ b = []
    · have h1s : b = [] ∨ a = [] := h1.symm
      rw [if_pos h1, if_pos h1s]
    · have h1s : ¬(b = [] ∨ a = []) := fun h => h1 h.symm
      rw [if_neg h1, if_neg h1s]
      rw [Nat.min_comm b.length a.length, dotRange_comm b a]
      by_cases h2 : Real.sqrt (dotRange a a (min a.length b.length)) = 0
          ∨ Real.sqrt (dotRange b b (min a.length b.length)) = 0
      · have h2s : Real.sqrt (dotRange b b (min a.length b.length)) = 0
            ∨ Real.sqrt (dotRange a a (min a.length b.length)) = 0 := h2.symm
        rw [if_pos h2, if_pos h2s]
      · have h2s : ¬(Real.sqrt (dotRange b b (min a.length b.length)) = 0
            ∨ Real.sqrt (dotRange a a (min a.length b.length)) = 0) :=
          fun h => h2 h.symm
        rw [if_neg h2, if_neg h2s, mul_comm]
  · intro hx
    have hne : a ≠ [] := by
      rintro rfl
      simpa using hx
    have hpos : 0 < dotRange a a a.length := dotRange_self_pos a hx
    have hs : Real.sqrt (dotRange a a a.length) ≠ 0 :=
      (Real.sqrt_pos.mpr hpos).ne'
    unfold cosineSimilarity
    rw [if_neg (by simp [hne]), Nat.min_self]
    rw [if_neg (by push_neg; exact ⟨hs, hs⟩)]
    rw [Real.mul_self_sqrt hpos.le]
    exact div_self hpos.ne'
  · intro h0
    constructor
    · by_cases h1 : a = [] ∨ b = []
      · unfold cosineSimilarity
        rw [if_pos h1]
      · unfold cosineSimilarity
        rw [if_neg h1, dotRange_self_eq_zero a _ h0, Real.sqrt_zero,
          if_pos (Or.inl rfl)]
    · by_cases h1 : b = [] ∨ a = []
      · unfold cosineSimilarity
        rw [if_pos h1]
      · unfold cosineSimilarity
        rw [if_neg h1, dotRange_self_eq_zero a _ h0, Real.sqrt_zero,
          if_pos (Or.inr rfl)]

/-- Witness for claim C6: the one-component unit vector has self-similarity 1,
and the zero vector scores 0 against a non-zero vector. -/
theorem claim_c6_witness :
    (∃ x ∈ [(1 : ℝ)], x ≠ 0) ∧ cosineSimilarity [(1 : ℝ)] [(1 : ℝ)] = 1 ∧
    (∀ x ∈ [(0 : ℝ)], x = 0) ∧ cosineSimilarity [(0 : ℝ)] [(1 : ℝ)] = 0 := by
  have h1 : ∃ x ∈ [(1 : ℝ)], x ≠ 0 := ⟨1, by simp, one_ne_zero⟩
  have h2 : ∀ x ∈ [(0 : ℝ)], x = 0 := by simp
  exact ⟨h1, (claim_c6 [(1 : ℝ)] [(1 : ℝ)]).2.1 h1, h2,
    ((claim_c6 [(0 : ℝ)] [(1 : ℝ)]).2.2 h2).1⟩

theorem getD_replicate {α : Type} (n j : Nat) (a : α) :
    (List.replicate n a).getD j a = a := by
  rcases Nat.lt_or_ge j n with h | h
  · rw [getD_lt _ _ _ (by simpa using h), List.getElem_replicate]
  · rw [getD_ge _ _ _ (by simpa using h)]

theorem map_getD_range (v : List ℤ) :
    (List.range v.length).map (fun j => v.getD j 0) = v := by
  apply List.ext_getElem
  · simp
  · intro i h1 h2
    simp only [List.getElem_map, List.getElem_range]
    exact getD_lt v 0 i h2

theorem foldl_bucketStep (dim : Nat) (cs : List Char) :
    ∀ (i : Nat) (v : List ℤ), v.length = dim →
      (cs.enumFrom i).foldl (bucketStep dim) v
        = (List.range dim).map (fun j => v.getD j 0 + bucketSumFrom cs i dim j) := by
  induction cs with
  | nil =>
    intro i v hv
    subst hv
    rw [List.enumFrom_nil, List.foldl_nil]
    have hz : (List.range v.length).map
        (fun j => v.getD j 0 + bucketSumFrom [] i v.length j)
        = (List.range v.length).map (fun j => v.getD j 0) :=
      List.map_congr_left (fun j _ => by simp [bucketSumFrom])
    rw [hz, map_getD_range]
  | cons c cs ih =>
    intro i v hv
    rw [List.enumFrom_cons, List.foldl_cons]
    have hv' : (bucketStep dim v (i, c)).length = dim := by
      simp [bucketStep, hv]
    rw [ih (i + 1) _ hv']
    apply List.map_congr_left
    intro j hj
    have hjdim : j < dim := List.mem_range.mp hj
    have hjv : j < v.length := by omega
    by_cases hij : i % dim = j
    · have hsum : bucketSumFrom (c :: cs) i dim j
          = (c.toNat : ℤ) + bucketSumFrom cs (i + 1) dim j := by
        simp [bucketSumFrom, List.filter_cons, hij]
      have hlt : j < (bucketStep dim v (i, c)).length := by
        rw [hv']
        exact hjdim
      have hget : (bucketStep dim v (i, c)).getD j 0
          = v.getD j 0 + (c.toNat : ℤ) := by
        rw [getD_lt _ 0 j hlt]
        simp only [bucketStep, hij]
        rw [List.getElem_set_self]
      rw [hsum, hget, add_assoc]
    · have hsum : bucketSumFrom (c :: cs) i dim j
          = bucketSumFrom cs (i + 1) dim j := by
        simp [bucketSumFrom, List.filter_cons, hij]
      have hlt : j < (bucketStep dim v (i, c)).length := by
        rw [hv']
        exact hjdim
      have hget : (bucketStep dim v (i, c)).getD j 0 = v.getD j 0 := by
        rw [getD_lt _ 0 j hlt]
        simp only [bucketStep]
        rw [List.getElem_set_ne hij]
        exact (getD_lt v 0 j hjv).symm
      rw [hsum, hget]

theorem buildVector_eq_bucketVector (text : String) (dim : Nat) :
    buildVector text dim = bucketVector text dim := by
  unfold buildVector bucketVector
  rw [show text.toList.enum = text.toList.enumFrom 0 from rfl]
  rw [foldl_bucketStep dim text.toList 0 (List.replicate dim 0) (by simp)]
  apply List.map_congr_left
  intro j hj
  rw [getD_replicate, zero_add]

theorem sumSq_nonneg (v : List ℝ) : 0 ≤ sumSq v := by
  apply List.sum_nonneg
  intro x hx
  simp only [List.mem_map] at hx
  obtain ⟨y, -, rfl⟩ := hx
  exact mul_self_nonneg _

theorem sumSq_map_div (v : List ℝ) (c : ℝ) :
    sumSq (v.map (fun x => x / c)) = sumSq v / (c * c) := by
  induction v with
  | nil => simp [sumSq]
  | cons x v ih =>
    simp only [sumSq, List.map_cons, List.sum_cons] at ih ⊢
    rw [div_mul_div_comm, ih, add_div]

theorem sumSq_map_intCast (v : List ℤ) :
    sumSq (v.map (fun z : ℤ => (z : ℝ))) = ((sumSqInt v : ℤ) : ℝ) := by
  unfold sumSq sumSqInt
  rw [List.map_map]
  have h1 : ((fun x : ℝ => x * x) ∘ fun z : ℤ => (z : ℝ))
      = (fun z : ℤ => ((z * z : ℤ) : ℝ)) := by
    funext z
    push_cast
    rfl
  rw [h1]
  have h2 : (fun z : ℤ => ((z * z : ℤ) : ℝ))
      = (fun z : ℤ => (Int.castRingHom ℝ) (z * z)) := rfl
  rw [h2]
  rw [show (fun z : ℤ => (Int.castRingHom ℝ) (z * z))
      = ((Int.castRingHom ℝ) ∘ (fun x : ℤ => x * x)) from rfl]
  rw [← List.map_map]
  exact (map_list_sum (Int.castRingHom ℝ) _).symm

theorem vecNorm_normalizeVec (v : List ℝ) (h : sumSq v ≠ 0) :
    vecNorm (normalizeVec v) = 1 := by
  have hnn : 0 ≤ sumSq v := sumSq_nonneg v
  have hpos : 0 < sumSq v := lt_of_le_of_ne hnn (Ne.symm h)
  have hs : Real.sqrt (sumSq v) ≠ 0 := (Real.sqrt_pos.mpr hpos).ne'
  unfold normalizeVec
  rw [if_neg hs]
  unfold vecNorm
  rw [sumSq_map_div, Real.mul_self_sqrt hnn, div_self h, Real.sqrt_one]

/-- Claim C5 (amended): the fallback embedding buckets character codes by
index modulo the dimensionality exactly as the specification describes, and
the returned vector has unit Euclidean norm whenever the bucketed vector is
non-zero; an all-zero bucketed vector (for example from the empty text) is
returned unchanged instead of being normalized. -/
theorem claim_c5 (text : String) (dim : Nat) :
    buildVector text dim = bucketVector text dim ∧
    (sumSq ((buildVector text dim).map (fun z : ℤ => (z : ℝ))) = 0 →
      mockEmbedding text dim = (buildVector text dim).map (fun z : ℤ => (z : ℝ))) ∧
    (sumSq ((buildVector text dim).map (fun z : ℤ => (z : ℝ))) ≠ 0 →
      vecNorm (mockEmbedding text dim) = 1) := by
  refine ⟨buildVector_eq_bucketVector text dim, ?_, ?_⟩
  · intro h
    unfold mockEmbedding normalizeVec
    rw [h, Real.sqrt_zero, if_pos rfl]
  · intro h
    unfold mockEmbedding
    exact vecNorm_normalizeVec _ h

/-- Counterexample for claim C5 as stated: on the empty text the fallback
embedding returns the all-zero vector, whose Euclidean norm is 0, not 1; the
output is not L2-normalized for every input text. -/
theorem claim_c5_counterexample :
    vecNorm (mockEmbedding "" 64) = 0 ∧ vecNorm (mockEmbedding "" 64) ≠ 1 := by
  have hb : buildVector "" 64 = List.replicate 64 (0 : ℤ) := rfl
  have hmap : (List.replicate 64 (0 : ℤ)).map (fun z : ℤ => (z : ℝ))
      = List.replicate 64 (0 : ℝ) := by
    simp
  have hs : sumSq (List.replicate 64 (0 : ℝ)) = 0 := by
    simp [sumSq]
  have hm : mockEmbedding "" 64 = List.replicate 64 (0 : ℝ) := by
    unfold mockEmbedding normalizeVec
    rw [hb, hmap, hs, Real.sqrt_zero, if_pos rfl]
  have hnorm : vecNorm (mockEmbedding "" 64) = 0 := by
    rw [hm]
    unfold vecNorm
    rw [hs, Real.sqrt_zero]
  exact ⟨hnorm, by rw [hnorm]; exact zero_ne_one⟩

/-- Witness for claim C5: the one-character text has a non-zero bucketed
vector and a unit-norm embedding, while the empty text hits the zero branch. -/
theorem claim_c5_witness :
    sumSq ((buildVector "a" 64).map (fun z : ℤ => (z : ℝ))) ≠ 0 ∧
    vecNorm (mockEmbedding "a" 64) = 1 ∧
    sumSq ((buildVector "" 64).map (fun z : ℤ => (z : ℝ))) = 0 ∧
    mockEmbedding "" 64 = (buildVector "" 64).map (fun z : ℤ => (z : ℝ)) := by
  have h1 : sumSq ((buildVector "a" 64).map (fun z : ℤ => (z : ℝ))) ≠ 0 := by
    rw [sumSq_map_intCast]
    have hq : sumSqInt (buildVector "a" 64) = 9409 := by decide
    rw [hq]
    norm_num
  have h2 : sumSq ((buildVector "" 64).map (fun z : ℤ => (z : ℝ))) = 0 := by
    rw [sumSq_map_intCast]
    have hq : sumSqInt (buildVector "" 64) = 0 := by decide
    rw [hq]
    norm_num
  exact ⟨h1, (claim_c5 "a" 64).2.2 h1, h2, (claim_c5 "" 64).2.1 h2⟩

theorem descLe_trans : ∀ (a b c : ℝ × String),
    descLe a b → descLe b c → descLe a c := by
  intro a b c hab hbc
  simp only [descLe, decide_eq_true_eq] at hab hbc ⊢
  exact le_trans hbc hab

theorem descLe_total : ∀ (a b : ℝ × String), descLe a b || descLe b a := by
  intro a b
  simp only [descLe, Bool.or_eq_true, decide_eq_true_eq]
  exact le_total b.1 a.1

theorem sortedScored_pairwise (embed : String → List ℝ) (s : RetrievalMemory)
    (query : String) :
    (sortedScored embed s query).Pairwise (fun x y => y.1 ≤ x.1) := by
  have hs := List.sorted_mergeSort descLe_trans descLe_total
    (scoredList embed s query)
  simp only [sortedScored]
  exact hs.imp (fun h => by simpa [descLe, decide_eq_true_eq] using h)

theorem scoredList_length (embed : String → List ℝ) (s : RetrievalMemory)
    (query : String) (he : s.embeddings.length = s.texts.length) :
    (scoredList embed s query).length = s.texts.length := by
  simp only [scoredList, List.length_map, List.length_zip, he, Nat.min_self]

/-- Claim C2: retrieve returns the empty sequence for k <= 0 or an empty
store; otherwise it returns min(k, size) texts read off a stably sorted
scored list: similarities are non-increasing, ties keep insertion order,
every kept entry scores at least every discarded one, and k at least the
store size returns all stored texts (ranked). -/
theorem claim_c2 (embed : String → List ℝ) (s : RetrievalMemory)
    (query : String) (k : Int) :
    ((k ≤ 0 ∨ s.texts = []) → RetrievalMemory.retrieve embed s query k = []) ∧
    (s.embeddings.length = s.texts.length →
      (RetrievalMemory.retrieve embed s query k).length
        = min k.toNat s.texts.length) ∧
    (sortedScored embed s query).Pairwise (fun x y => y.1 ≤ x.1) ∧
    (∀ a b : ℝ × String, List.Sublist [a, b] (scoredList embed s query) →
      a.1 = b.1 → List.Sublist [a, b] (sortedScored embed s query)) ∧
    (∀ x ∈ (sortedScored embed s query).take k.toNat,
      ∀ y ∈ (sortedScored embed s query).drop k.toNat, y.1 ≤ x.1) ∧
    (s.embeddings.length = s.texts.length → (s.texts.length : Int) ≤ k →
      (RetrievalMemory.retrieve embed s query k).Perm s.texts) := by
  refine ⟨?_, ?_, sortedScored_pairwise embed s query, ?_, ?_, ?_⟩
  · intro h
    simp only [RetrievalMemory.retrieve, if_pos h]
  · intro he
    by_cases h : k ≤ 0 ∨ s.texts = []
    · simp only [RetrievalMemory.retrieve, if_pos h, List.length_nil]
      rcases h with h | h
      · omega
      · simp [h]
    · have hlen : (sortedScored embed s query).length
          = (scoredList embed s query).length :=
        (List.mergeSort_perm _ _).length_eq
      simp only [RetrievalMemory.retrieve, if_neg h, List.length_map,
        List.length_take]
      rw [hlen, scoredList_length embed s query he]
  · intro a b hsub heq
    have hab : descLe a b = true := by
      simp [descLe, heq]
    simp only [sortedScored]
    exact List.pair_sublist_mergeSort descLe_trans descLe_total hab hsub
  · intro x hx y hy
    have hp := sortedScored_pairwise embed s query
    rw [← List.take_append_drop k.toNat (sortedScored embed s query)] at hp
    exact (List.pairwise_append.mp hp).2.2 x hx y hy
  · intro he hk
    by_cases h : k ≤ 0 ∨ s.texts = []
    · have h0 : s.texts = [] := by
        rcases h with h | h
        · refine List.length_eq_zero.mp ?_
          omega
        · exact h
      have hre : RetrievalMemory.retrieve embed s query k = [] := by
        simp only [RetrievalMemory.retrieve, if_pos h]
      rw [hre, h0]
    · have hlen2 : (sortedScored embed s query).length = s.texts.length := by
        rw [show (sortedScored embed s query).length
            = (scoredList embed s query).length from
          (List.mergeSort_perm _ _).length_eq]
        exact scoredList_length embed s query he
      have htake : (sortedScored embed s query).take k.toNat
          = sortedScored embed s query := by
        apply List.take_of_length_le
        rw [hlen2]
        omega
      simp only [RetrievalMemory.retrieve, if_neg h]
      rw [htake]
      have hperm := (List.mergeSort_perm (scoredList embed s query) descLe).map
        (fun p : ℝ × String => p.2)
      have hmapsnd : (scoredList embed s query).map (fun p : ℝ × String => p.2)
          = s.texts := by
        simp only [scoredList, List.map_map]
        rw [show ((fun p : ℝ × String => p.2) ∘ (fun p : String × List ℝ =>
            (cosineSimilarity (embed query) p.2, p.1)))
          = (Prod.fst : String × List ℝ → String) from rfl]
        exact List.map_fst_zip _ _ (by omega)
      rw [hmapsnd] at hperm
      simp only [sortedScored]
      exact hperm

theorem cosineSimilarity_one_one :
    cosineSimilarity [(1 : ℝ)] [(1 : ℝ)] = 1 := by
  unfold cosineSimilarity
  rw [if_neg (by simp)]
  have hd : dotRange [(1 : ℝ)] [(1 : ℝ)]
      (min (List.length [(1 : ℝ)]) (List.length [(1 : ℝ)])) = 1 := by
    simp [dotRange, List.range_succ]
  rw [hd, Real.sqrt_one]
  rw [if_neg (by norm_num)]
  norm_num

theorem scoredList_pair :
    scoredList (fun _ => [(1 : ℝ)])
        (RetrievalMemory.mk ["x", "y"] [[(1 : ℝ)], [(1 : ℝ)]]) "q"
      = [((1 : ℝ), "x"), ((1 : ℝ), "y")] := by
  simp only [scoredList, List.zip, List.zipWith, List.map_cons, List.map_nil]
  rw [cosineSimilarity_one_one]

theorem sortedScored_pair :
    sortedScored (fun _ => [(1 : ℝ)])
        (RetrievalMemory.mk ["x", "y"] [[(1 : ℝ)], [(1 : ℝ)]]) "q"
      = [((1 : ℝ), "x"), ((1 : ℝ), "y")] := by
  simp only [sortedScored]
  rw [scoredList_pair]
  apply List.mergeSort_of_sorted
  simp [descLe]

/-- Witness for claim C2: on a two-record store whose records tie in
similarity, retrieve keeps insertion order; k = 0 returns nothing; k above
the store size returns all texts. -/
theorem claim_c2_witness :
    ((0 : Int) ≤ 0 ∨ (RetrievalMemory.mk [] []).texts = ([] : List String)) ∧
    RetrievalMemory.retrieve (fun _ => [(1 : ℝ)])
      (RetrievalMemory.mk [] []) "q" 0 = [] ∧
    (RetrievalMemory.mk ["x", "y"]
      [[(1 : ℝ)], [(1 : ℝ)]]).embeddings.length
      = (RetrievalMemory.mk ["x", "y"] [[(1 : ℝ)], [(1 : ℝ)]]).texts.length ∧
    (RetrievalMemory.retrieve (fun _ => [(1 : ℝ)])
        (RetrievalMemory.mk ["x", "y"] [[(1 : ℝ)], [(1 : ℝ)]]) "q" 1).length
      = min (1 : Int).toNat 2 ∧
    List.Sublist [((1 : ℝ), "x"), ((1 : ℝ), "y")]
      (scoredList (fun _ => [(1 : ℝ)])
        (RetrievalMemory.mk ["x", "y"] [[(1 : ℝ)], [(1 : ℝ)]]) "q") ∧
    ((1 : ℝ), "x").1 = ((1 : ℝ), "y").1 ∧
    List.Sublist [((1 : ℝ), "x"), ((1 : ℝ), "y")]
      (sortedScored (fun _ => [(1 : ℝ)])
        (RetrievalMemory.mk ["x", "y"] [[(1 : ℝ)], [(1 : ℝ)]]) "q") ∧
    (((RetrievalMemory.mk ["x", "y"]
        [[(1 : ℝ)], [(1 : ℝ)]]).texts.length : Int) ≤ 5) ∧
    (RetrievalMemory.retrieve (fun _ => [(1 : ℝ)])
        (RetrievalMemory.mk ["x", "y"] [[(1 : ℝ)], [(1 : ℝ)]]) "q" 5).Perm
      (RetrievalMemory.mk ["x", "y"] [[(1 : ℝ)], [(1 : ℝ)]]).texts := by
  have hempty : (0 : Int) ≤ 0 ∨ (RetrievalMemory.mk [] []).texts
      = ([] : List String) := Or.inl le_rfl
  have he : (RetrievalMemory.mk ["x", "y"]
      [[(1 : ℝ)], [(1 : ℝ)]]).embeddings.length
      = (RetrievalMemory.mk ["x", "y"] [[(1 : ℝ)], [(1 : ℝ)]]).texts.length := rfl
  have hsub : List.Sublist [((1 : ℝ), "x"), ((1 : ℝ), "y")]
      (scoredList (fun _ => [(1 : ℝ)])
        (RetrievalMemory.mk ["x", "y"] [[(1 : ℝ)], [(1 : ℝ)]]) "q") := by
    rw [scoredList_pair]
  have heq : ((1 : ℝ), "x").1 = ((1 : ℝ), "y").1 := rfl
  have hk5 : (((RetrievalMemory.mk ["x", "y"]
      [[(1 : ℝ)], [(1 : ℝ)]]).texts.length : Int) ≤ 5) := by norm_num
  refine ⟨hempty,
    (claim_c2 (fun _ => [(1 : ℝ)]) (RetrievalMemory.mk [] []) "q" 0).1 hempty,
    he,
    (claim_c2 (fun _ => [(1 : ℝ)])
      (RetrievalMemory.mk ["x", "y"] [[(1 : ℝ)], [(1 : ℝ)]]) "q" 1).2.1 he,
    hsub, heq,
    (claim_c2 (fun _ => [(1 : ℝ)])
      (RetrievalMemory.mk ["x", "y"] [[(1 : ℝ)], [(1 : ℝ)]]) "q" 1).2.2.2.1
      _ _ hsub heq,
    hk5,
    (claim_c2 (fun _ => [(1 : ℝ)])
      (RetrievalMemory.mk ["x", "y"] [[(1 : ℝ)], [(1 : ℝ)]]) "q" 5).2.2.2.2.2
      he hk5⟩
